import Mathlib

/-!  Formal model of the peeng IPFS peer monitor (src/main.go, version 1.1.3).

The Go program probes peers through the local IPFS daemon HTTP API, stores
results in a SQLite table `peers`, and serves two endpoints.  This file
embeds the pure logic of that program: the streamed ping-response scanning
loop, the upsert into the peers table, the worker selection query, and the
two HTTP handlers.  Network and storage are external collaborators and are
modelled as explicit inputs: the daemon reply is a value, the table is a
list of rows, timestamps are natural numbers (seconds).
-/

/-- A row of the `peers` table, which is also the JSON shape served by
GET /peers (struct `Peer` in main.go): columns peer_id, last_time_check,
active. -/
structure Peer where
  PeerID : String
  LastTimeCheck : Nat
  Active : Bool
deriving DecidableEq, Repr

/-- One decoded line of the daemon streamed /api/v0/ping response (the
anonymous struct in pingPeerWithAddress, main.go lines 206 to 210).
`Time` is a round-trip time in nanoseconds (int64 in Go). -/
structure PingMsg where
  Success : Bool
  Text : String
  Time : Int
deriving DecidableEq, Repr

/-- The request body of POST /hehojexiste (struct HehojExisteRequest). -/
structure HehojExisteRequest where
  PeerID : String
  AddressMap : String
deriving DecidableEq, Repr

/-- The acceptance test applied to each decoded line (main.go line 219):
`msg.Time > 0 && msg.Success`. -/
def msgQualifies (m : PingMsg) : Bool :=
  decide (m.Time > 0) && m.Success

/-- A scanned line as the loop sees it: `none` models a line that
json.Unmarshal rejects (skipped with a warning, main.go lines 211 to 214);
`some m` a line that decodes to `m`.  A line qualifies when it decodes and
passes `msgQualifies`. -/
def lineQualifies : Option PingMsg → Bool
  | none => false
  | some m => msgQualifies m

/-- The local state of the scanning loop in pingPeerWithAddress:
pongCount and totalLatency (main.go lines 201 to 202), plus the number of
lines the scanner consumed before the loop stopped. -/
structure ScanState where
  pongCount : Nat
  totalLatency : Int
  consumed : Nat
deriving DecidableEq, Repr

/-- The line-scanning loop of pingPeerWithAddress (main.go lines 204 to
228): lines that fail to decode are skipped; the first line with
`Time > 0 && Success` increments pongCount, adds its Time to totalLatency
and breaks out of the loop; all other lines are passed over. -/
def scanPings : List (Option PingMsg) → ScanState
  | [] => ⟨0, 0, 0⟩
  | none :: rest =>
    let s := scanPings rest
    ⟨s.pongCount, s.totalLatency, s.consumed + 1⟩
  | some m :: rest =>
    if msgQualifies m then ⟨1, m.Time, 1⟩
    else
      let s := scanPings rest
      ⟨s.pongCount, s.totalLatency, s.consumed + 1⟩

/-- The verdict computed after the scanning loop (main.go lines 230 to
242).  `streamErr` says whether the underlying stream ended in a read
error; scanner.Err() can only report it when the loop ran to exhaustion,
i.e. when no pong was accepted (a break hides a later stream error).
Then the verdict is `pongCount > 0`. -/
def pingVerdict (lines : List (Option PingMsg)) (streamErr : Bool) : Bool :=
  let s := scanPings lines
  if streamErr && s.pongCount == 0 then false
  else decide (s.pongCount > 0)

/-- The average-latency value logged when at least one pong was accepted
(main.go lines 235 to 238): totalLatency / pongCount / 1e6, in
milliseconds, as an exact rational.  It is written to the log only; the
function returns just the Bool verdict to its caller. -/
def loggedAvgLatencyMs (lines : List (Option PingMsg)) : Option ℚ :=
  let s := scanPings lines
  if s.pongCount > 0 then some ((s.totalLatency : ℚ) / (s.pongCount : ℚ) / 1000000)
  else none

/-- The ping request argument (main.go lines 169 to 175): the bare peer id,
or addressMap/p2p/peerID when an address hint is given. -/
def pingArg (peerID addressMap : String) : String :=
  if addressMap != "" then addressMap ++ "/p2p/" ++ peerID else peerID

/-- A daemon reply as the probe observes it: `none` models a transport
failure (request creation or client.Do error, main.go lines 180 to 191);
otherwise the HTTP status code, the scanned response lines, and whether
the stream ended in a scanner error. -/
def DaemonReply : Type :=
  Option (Nat × List (Option PingMsg) × Bool)

/-- The response handling of pingPeerWithAddress (main.go lines 180 to
242): transport failure is false; a status other than 200 returns false
before the body is scanned; otherwise the verdict of the scanning loop. -/
def pingReplyVerdict (reply : DaemonReply) : Bool :=
  match reply with
  | none => false
  | some (stat, lines, streamErr) =>
    if stat != 200 then false
    else pingVerdict lines streamErr

/-- pingPeerWithAddress (main.go lines 162 to 243), with the daemon
modelled as a function from the request argument to its reply. -/
def pingPeerWithAddress (daemon : String → DaemonReply) (peerID addressMap : String) : Bool :=
  pingReplyVerdict (daemon (pingArg peerID addressMap))

/-- pingPeer (main.go lines 157 to 159): ping with no address hint. -/
def pingPeer (daemon : String → DaemonReply) (peerID : String) : Bool :=
  pingPeerWithAddress daemon peerID ""

/-- upsertPeer (main.go lines 245 to 262): INSERT INTO peers ... ON
CONFLICT(peer_id) DO UPDATE SET last_time_check, active.  On a table whose
peer_id column is the primary key this replaces the existing row in place,
or appends a fresh row when none exists. -/
def upsertPeer (peerID : String) (checkTime : Nat) (active : Bool) : List Peer → List Peer
  | [] => [⟨peerID, checkTime, active⟩]
  | r :: rs =>
    if r.PeerID == peerID then ⟨peerID, checkTime, active⟩ :: rs
    else r :: upsertPeer peerID checkTime active rs

/-- The primary-key invariant of the peers table: peer_id values are
pairwise distinct. -/
def keysNodup (db : List Peer) : Prop :=
  (db.map Peer.PeerID).Nodup

instance (db : List Peer) : Decidable (keysNodup db) :=
  inferInstanceAs (Decidable ((db.map Peer.PeerID).Nodup))

/-- ORDER BY last_time_check ASC as a relation on rows. -/
def checkAsc (a b : Peer) : Prop :=
  a.LastTimeCheck ≤ b.LastTimeCheck

/-- ORDER BY last_time_check DESC as a relation on rows. -/
def checkDesc (a b : Peer) : Prop :=
  b.LastTimeCheck ≤ a.LastTimeCheck

instance : DecidableRel checkAsc :=
  fun a b => Nat.decLe a.LastTimeCheck b.LastTimeCheck

instance : DecidableRel checkDesc :=
  fun a b => Nat.decLe b.LastTimeCheck a.LastTimeCheck

instance : IsTotal Peer checkAsc :=
  ⟨fun a b => Nat.le_total a.LastTimeCheck b.LastTimeCheck⟩

instance : IsTrans Peer checkAsc :=
  ⟨fun _ _ _ h1 h2 => Nat.le_trans h1 h2⟩

instance : IsTotal Peer checkDesc :=
  ⟨fun a b => Nat.le_total b.LastTimeCheck a.LastTimeCheck⟩

instance : IsTrans Peer checkDesc :=
  ⟨fun _ _ _ h1 h2 => Nat.le_trans h2 h1⟩

/-- The single selection query of workerLoop (main.go lines 98 to 102):
SELECT peer_id FROM peers ORDER BY last_time_check ASC LIMIT 5.  No WHERE
clause: every row is a candidate regardless of its active flag or how
recently it was checked. -/
def selectPeersToPing (db : List Peer) : List String :=
  ((List.insertionSort checkAsc db).take 5).map Peer.PeerID

/-- Observable steps of one worker iteration: a probe of a peer, an upsert
of its result, or a sleep of some milliseconds. -/
inductive WorkerEvent where
  | probe (peerID : String) (ok : Bool)
  | upsertEv (peerID : String) (ok : Bool)
  | sleepMs (ms : Nat)
deriving DecidableEq, Repr

/-- Whether an event is a sleep. -/
def WorkerEvent.isSleep : WorkerEvent → Bool
  | .sleepMs _ => true
  | _ => false

/-- The peer a probe event names, if the event is a probe. -/
def WorkerEvent.probedPeer : WorkerEvent → Option String
  | .probe pid _ => some pid
  | _ => none

/-- The ping loop of one worker iteration (main.go lines 123 to 127): for
each selected peer id in order, ping it, then upsert the result; the loop
body contains no sleep. -/
def workerPingPhase (pingResult : String → Bool) (now : Nat) :
    List String → List Peer → List WorkerEvent × List Peer
  | [], db => ([], db)
  | pid :: rest, db =>
    let res := workerPingPhase pingResult now rest (upsertPeer pid now (pingResult pid) db)
    (.probe pid (pingResult pid) :: .upsertEv pid (pingResult pid) :: res.1, res.2)

/-- One iteration of workerLoop (main.go lines 97 to 127): run the single
selection query; on query failure log, sleep 30 seconds and continue;
otherwise ping each selected peer in order and upsert each result. -/
def workerIteration (queryFails : Bool) (daemon : String → DaemonReply) (now : Nat)
    (db : List Peer) : List WorkerEvent × List Peer :=
  if queryFails then ([.sleepMs 30000], db)
  else workerPingPhase (fun pid => pingPeer daemon pid) now (selectPeersToPing db) db

/-- Modelled from the spec (section 4.2, tier 1), which describes a
selection query absent from main.go: peers currently flagged not-active
whose last check is older than 5 minutes, ordered oldest-checked-first,
capped at 10. -/
def inactiveTierSpec (now : Nat) (db : List Peer) : List String :=
  ((List.insertionSort checkAsc
      (db.filter (fun r => !r.Active && decide (r.LastTimeCheck + 300 < now)))).take 10).map
    Peer.PeerID

/-- Modelled from the spec (section 4.2, tier 2), which describes a
selection query absent from main.go: any peer whose last check is older
than 30 minutes, regardless of flag, ordered oldest-checked-first, capped
at 5. -/
def staleTierSpec (now : Nat) (db : List Peer) : List String :=
  ((List.insertionSort checkAsc
      (db.filter (fun r => decide (r.LastTimeCheck + 1800 < now)))).take 5).map Peer.PeerID

/-- handlePeers (main.go lines 264 to 300): SELECT peer_id,
last_time_check, active FROM peers ORDER BY last_time_check DESC, scanned
into a slice and encoded.  The pair is (response rows, store afterwards):
the handler runs no statement that writes. -/
def handlePeers (db : List Peer) : List Peer × List Peer :=
  (List.insertionSort checkDesc db, db)

/-- Go append on a possibly-nil slice: appending to nil allocates, so the
result is always non-nil. -/
def goAppend (s : Option (List Peer)) (x : Peer) : Option (List Peer) :=
  some (s.getD [] ++ [x])

/-- The `peers` slice handlePeers builds (main.go lines 274 to 293):
`var peers []Peer` starts as the nil slice and stays nil when the result
set is empty, because append is only reached inside the row loop. -/
def handlePeersSlice (db : List Peer) : Option (List Peer) :=
  (List.insertionSort checkDesc db).foldl goAppend none

/-- encoding/json on one Peer value (field order of the struct tags). -/
def encodePeerJSON (p : Peer) : String :=
  "\x7b\"peer_id\":\"" ++ p.PeerID ++ "\",\"last_time_check\":" ++ toString p.LastTimeCheck
    ++ ",\"active\":" ++ (if p.Active then "true" else "false") ++ "\x7d"

/-- encoding/json on a []Peer slice: the nil slice marshals as null, a
non-nil slice as a JSON array. -/
def encodeGoSlice (s : Option (List Peer)) : String :=
  match s with
  | none => "null"
  | some xs => "[" ++ String.intercalate "," (xs.map encodePeerJSON) ++ "]"

/-- The body GET /peers writes (main.go line 296): the encoding of the
slice the row loop built. -/
def handlePeersBody (db : List Peer) : String :=
  encodeGoSlice (handlePeersSlice db)

/-- The HTTP response of the /hehojexiste handler: status code, and the
ping_successful body field when the handler reaches the success path. -/
structure HehojResponse where
  status : Nat
  ping_successful : Option Bool
deriving DecidableEq, Repr

/-- handleHehojExiste (main.go lines 302 to 333): 405 unless POST; 400 when
the body does not decode (`none`) or decodes with an empty peer_id, with
no store change; otherwise ping synchronously, upsert the outcome, and
answer 200 with the verdict. -/
def handleHehojExiste (method : String) (body : Option HehojExisteRequest)
    (daemon : String → DaemonReply) (now : Nat) (db : List Peer) :
    HehojResponse × List Peer :=
  if method != "POST" then (⟨405, none⟩, db)
  else
    match body with
    | none => (⟨400, none⟩, db)
    | some req =>
      if req.PeerID == "" then (⟨400, none⟩, db)
      else
        let pingOK := pingPeerWithAddress daemon req.PeerID req.AddressMap
        (⟨200, some pingOK⟩, upsertPeer req.PeerID now pingOK db)

/-! ## Helper lemmas about the scanning loop -/

/-- The pong counter counts at most the first qualifying line. -/
theorem scanPings_pongCount (lines : List (Option PingMsg)) :
    (scanPings lines).pongCount = if lines.any lineQualifies then 1 else 0 := by
  induction lines with
  | nil => rfl
  | cons l rest ih =>
    cases l with
    | none => simpa [scanPings, lineQualifies] using ih
    | some m =>
      by_cases h : msgQualifies m
      · simp [scanPings, lineQualifies, h]
      · simp [scanPings, lineQualifies, h, ih]

/-- The scanner consumes exactly up to the first qualifying line, or the
whole stream when none qualifies. -/
theorem scanPings_consumed (lines : List (Option PingMsg)) :
    (scanPings lines).consumed =
      if lines.any lineQualifies
      then (lines.takeWhile (fun l => !lineQualifies l)).length + 1
      else lines.length := by
  induction lines with
  | nil => rfl
  | cons l rest ih =>
    cases l with
    | none =>
      by_cases h : rest.any lineQualifies
      · simp [scanPings, lineQualifies, List.takeWhile, h, ih]
      · simp [scanPings, lineQualifies, List.takeWhile, h, ih]
    | some m =>
      by_cases h : msgQualifies m
      · simp [scanPings, lineQualifies, List.takeWhile, h]
      · by_cases hr : rest.any lineQualifies
        · simp [scanPings, lineQualifies, List.takeWhile, h, hr, ih]
        · simp [scanPings, lineQualifies, List.takeWhile, h, hr, ih]

/-- The verdict of the scanning loop is the existence of a qualifying
line, whether or not the stream ended in an error. -/
theorem pingVerdict_eq_any (lines : List (Option PingMsg)) (streamErr : Bool) :
    pingVerdict lines streamErr = lines.any lineQualifies := by
  by_cases h : lines.any lineQualifies
  · simp [pingVerdict, scanPings_pongCount, h]
  · simp [pingVerdict, scanPings_pongCount, h]

/-- When every line before the first qualifying line does not qualify, the
scan state records that single pong and its latency. -/
theorem scanPings_first_qualifying (pre post : List (Option PingMsg)) (m : PingMsg)
    (hpre : ∀ l ∈ pre, lineQualifies l = false) (hm : msgQualifies m = true) :
    scanPings (pre ++ some m :: post) = ⟨1, m.Time, pre.length + 1⟩ := by
  induction pre with
  | nil => simp [scanPings, hm]
  | cons l rest ih =>
    have hl : lineQualifies l = false := hpre l (List.mem_cons_self l rest)
    have hrest : ∀ x ∈ rest, lineQualifies x = false :=
      fun x hx => hpre x (List.mem_cons_of_mem l hx)
    cases l with
    | none =>
      simp [scanPings, ih hrest]
    | some m2 =>
      have hm2 : msgQualifies m2 = false := by simpa [lineQualifies] using hl
      simp [scanPings, hm2, ih hrest]

/-! ## Claim theorems -/

/-- C1: for every streamed daemon reply, the probe returns reachable if and
only if some line decodes to a status with Success true and strictly
positive Time; the scanner consumes exactly up to the first such
qualifying line (accepting it and stopping), and when none qualifies
(empty stream, only failure lines, or a stream error) it consumes the
whole stream and the verdict is not-reachable. -/
theorem ping_first_success_verdict (lines : List (Option PingMsg)) (streamErr : Bool) :
    (pingPeerWithAddress (fun _ => some (200, lines, streamErr)) "QmPeer" ""
      = lines.any lineQualifies)
    ∧ (scanPings lines).consumed =
        (if lines.any lineQualifies
         then (lines.takeWhile (fun l => !lineQualifies l)).length + 1
         else lines.length) :=
  ⟨by simp [pingPeerWithAddress, pingReplyVerdict, pingVerdict_eq_any],
   scanPings_consumed lines⟩

/-- C4: a line that fails to decode is skipped on its own and does not
abort the rest of the stream: inserting a malformed line anywhere leaves
the verdict unchanged, and a stream with an early malformed line followed
by a valid success line is still reachable. -/
theorem malformed_line_skipped (pre rest : List (Option PingMsg)) (streamErr : Bool) :
    (pingPeerWithAddress (fun _ => some (200, pre ++ none :: rest, streamErr)) "QmPeer" ""
      = pingPeerWithAddress (fun _ => some (200, pre ++ rest, streamErr)) "QmPeer" "")
    ∧ pingPeerWithAddress
        (fun _ => some (200, [none, some ⟨true, "", 5000000⟩], false)) "QmPeer" "" = true := by
  constructor
  · simp [pingPeerWithAddress, pingReplyVerdict, pingVerdict_eq_any, lineQualifies]
  · decide

/-- C5: a daemon reply whose HTTP status is not in the 2xx range yields a
not-reachable verdict, and the verdict is the same whatever the body or
stream condition, so the body is never read. -/
theorem non2xx_not_reachable (stat : Nat) (lines lines2 : List (Option PingMsg))
    (e e2 : Bool) (h : ¬ (200 ≤ stat ∧ stat < 300)) :
    pingPeerWithAddress (fun _ => some (stat, lines, e)) "QmPeer" "" = false
    ∧ pingPeerWithAddress (fun _ => some (stat, lines, e)) "QmPeer" ""
        = pingPeerWithAddress (fun _ => some (stat, lines2, e2)) "QmPeer" "" := by
  have hs : stat ≠ 200 := by
    rintro rfl
    exact h ⟨le_refl 200, by norm_num⟩
  constructor
  · simp [pingPeerWithAddress, pingReplyVerdict, hs]
  · simp [pingPeerWithAddress, pingReplyVerdict, hs]

/-- Witness for C5 at status 404 with two different bodies, one of which
contains a qualifying success line. -/
theorem non2xx_not_reachable_wit :
    pingPeerWithAddress (fun _ => some (404, [some ⟨true, "", 5000000⟩], false)) "QmPeer" ""
        = false
    ∧ pingPeerWithAddress (fun _ => some (404, [some ⟨true, "", 5000000⟩], false)) "QmPeer" ""
        = pingPeerWithAddress (fun _ => some (404, [], true)) "QmPeer" "" :=
  non2xx_not_reachable 404 [some ⟨true, "", 5000000⟩] [] false true (by decide)

/-! ## Upsert lemmas (C3) -/

/-- No row of a table whose keys avoid `pid` survives the filter on `pid`. -/
theorem filter_peerID_eq_nil (pid : String) (rs : List Peer)
    (h : pid ∉ rs.map Peer.PeerID) :
    rs.filter (fun r => r.PeerID == pid) = [] := by
  induction rs with
  | nil => rfl
  | cons r rest ih =>
    have hr : r.PeerID ≠ pid := fun he => h (by simp [he.symm])
    have hrest : pid ∉ rest.map Peer.PeerID := fun hm => h (by simp [hm])
    simp [List.filter_cons, hr, ih hrest]

/-- On a key-unique table, the rows matching `pid` after an upsert of `pid`
are exactly the upserted row. -/
theorem upsertPeer_filter (pid : String) (t : Nat) (a : Bool) (db : List Peer)
    (h : keysNodup db) :
    (upsertPeer pid t a db).filter (fun r => r.PeerID == pid) = [⟨pid, t, a⟩] := by
  induction db with
  | nil => simp [upsertPeer]
  | cons r rs ih =>
    rw [keysNodup, List.map_cons, List.nodup_cons] at h
    by_cases hr : r.PeerID = pid
    · have hnil : rs.filter (fun x => x.PeerID == pid) = [] :=
        filter_peerID_eq_nil pid rs (hr ▸ h.1)
      simp [upsertPeer, hr, List.filter, hnil]
    · have := ih h.2
      simp [upsertPeer, hr, List.filter, this]

/-- Every key after an upsert is the upserted key or an old key. -/
theorem upsertPeer_keys_sub (pid : String) (t : Nat) (a : Bool) (db : List Peer) :
    ∀ q ∈ (upsertPeer pid t a db).map Peer.PeerID, q = pid ∨ q ∈ db.map Peer.PeerID := by
  induction db with
  | nil => simp [upsertPeer]
  | cons r rs ih =>
    by_cases hr : r.PeerID = pid
    · intro q hq
      rcases (by simpa [upsertPeer, hr] using hq : q = pid ∨ q ∈ rs.map Peer.PeerID) with h1 | h1
      · exact Or.inl h1
      · exact Or.inr (by simp [h1])
    · intro q hq
      rcases (by simpa [upsertPeer, hr] using hq :
          q = r.PeerID ∨ q ∈ (upsertPeer pid t a rs).map Peer.PeerID) with h1 | h1
      · exact Or.inr (by simp [h1])
      · rcases ih q h1 with h2 | h2
        · exact Or.inl h2
        · exact Or.inr (by simp [h2])

/-- Upserting preserves the primary-key invariant. -/
theorem upsertPeer_nodup (pid : String) (t : Nat) (a : Bool) (db : List Peer)
    (h : keysNodup db) : keysNodup (upsertPeer pid t a db) := by
  induction db with
  | nil => simp [upsertPeer, keysNodup]
  | cons r rs ih =>
    rw [keysNodup, List.map_cons, List.nodup_cons] at h
    by_cases hr : r.PeerID = pid
    · have heq : upsertPeer pid t a (r :: rs) = ⟨pid, t, a⟩ :: rs := by
        simp [upsertPeer, hr]
      rw [heq, keysNodup, List.map_cons, List.nodup_cons]
      exact ⟨hr ▸ h.1, h.2⟩
    · have heq : upsertPeer pid t a (r :: rs) = r :: upsertPeer pid t a rs := by
        simp [upsertPeer, hr]
      rw [heq, keysNodup, List.map_cons, List.nodup_cons]
      refine ⟨fun hmem => ?_, ih h.2⟩
      rcases upsertPeer_keys_sub pid t a rs r.PeerID hmem with h2 | h2
      · exact hr h2
      · exact h.1 h2

/-- C3: upserting the same peer id twice on a key-unique table leaves
exactly one row for that id, carrying only the second call values, and
the table stays key-unique. -/
theorem upsert_twice_single_record (pid : String) (t1 t2 : Nat) (a1 a2 : Bool)
    (db : List Peer) (h : keysNodup db) :
    ((upsertPeer pid t2 a2 (upsertPeer pid t1 a1 db)).filter (fun r => r.PeerID == pid)
        = [⟨pid, t2, a2⟩])
    ∧ keysNodup (upsertPeer pid t2 a2 (upsertPeer pid t1 a1 db)) :=
  ⟨upsertPeer_filter pid t2 a2 (upsertPeer pid t1 a1 db) (upsertPeer_nodup pid t1 a1 db h),
   upsertPeer_nodup pid t2 a2 (upsertPeer pid t1 a1 db) (upsertPeer_nodup pid t1 a1 db h)⟩

/-- Witness for C3 on a concrete one-row table. -/
theorem upsert_twice_single_record_wit :
    ((upsertPeer "QmX" 20 true (upsertPeer "QmX" 10 false [⟨"QmA", 1, true⟩])).filter
        (fun r => r.PeerID == "QmX") = [⟨"QmX", 20, true⟩])
    ∧ keysNodup (upsertPeer "QmX" 20 true (upsertPeer "QmX" 10 false [⟨"QmA", 1, true⟩])) :=
  upsert_twice_single_record "QmX" 10 20 false true [⟨"QmA", 1, true⟩] (by decide)

/-! ## Latency reporting (C8) -/

/-- C8 counterexample: two daemon replies whose accepted success lines
carry different round-trip times produce the very same caller-visible
probe result, while the logged latencies differ, so the result returned
to the caller does not include the latency. -/
theorem latency_not_in_result_cex :
    (pingPeerWithAddress (fun _ => some (200, [some ⟨true, "", 5000000⟩], false)) "QmPeer" ""
      = pingPeerWithAddress (fun _ => some (200, [some ⟨true, "", 7000000⟩], false)) "QmPeer" "")
    ∧ loggedAvgLatencyMs [some ⟨true, "", 5000000⟩]
        ≠ loggedAvgLatencyMs [some ⟨true, "", 7000000⟩] := by
  have h5 := scanPings_first_qualifying [] [] ⟨true, "", 5000000⟩ (by simp) (by decide)
  have h7 := scanPings_first_qualifying [] [] ⟨true, "", 7000000⟩ (by simp) (by decide)
  simp only [List.nil_append] at h5 h7
  constructor
  · rfl
  · simp only [loggedAvgLatencyMs, h5, h7]
    norm_num

/-- C8 (amended): the probe returns only the reachability verdict to its
caller; when the first qualifying success line is accepted, that single
sample latency, Time divided by one million milliseconds, is computed and
written to the log. -/
theorem latency_logged_not_returned (pre post : List (Option PingMsg)) (m : PingMsg)
    (hpre : ∀ l ∈ pre, lineQualifies l = false) (hm : msgQualifies m = true) :
    pingPeerWithAddress (fun _ => some (200, pre ++ some m :: post, false)) "QmPeer" "" = true
    ∧ loggedAvgLatencyMs (pre ++ some m :: post) = some ((m.Time : ℚ) / 1000000) := by
  have hscan := scanPings_first_qualifying pre post m hpre hm
  constructor
  · simp [pingPeerWithAddress, pingReplyVerdict, pingVerdict, hscan]
  · simp [loggedAvgLatencyMs, hscan]

/-- Witness for the amended C8: a single success line with Time 5000000 ns
gives verdict reachable and a logged latency of 5 ms. -/
theorem latency_logged_not_returned_wit :
    pingPeerWithAddress (fun _ => some (200, [some ⟨true, "", 5000000⟩], false)) "QmPeer" ""
        = true
    ∧ loggedAvgLatencyMs [some ⟨true, "", 5000000⟩] = some 5 := by
  have h := latency_logged_not_returned [] [] ⟨true, "", 5000000⟩ (by simp) (by decide)
  simp only [List.nil_append] at h
  refine ⟨h.1, ?_⟩
  rw [h.2]
  norm_num

/-! ## Worker selection (C2) and pacing (C7) -/

/-- C2 counterexample: a peer checked one minute ago (at 999940, with now
1000000) is selected by the single query of workerLoop, while both
spec-modelled tier queries select nothing, so the code does not implement
the two-tier policy and does select recently checked peers. -/
theorem tiered_selection_cex :
    selectPeersToPing [⟨"p1", 999940, true⟩] = ["p1"]
    ∧ inactiveTierSpec 1000000 [⟨"p1", 999940, true⟩] = []
    ∧ staleTierSpec 1000000 [⟨"p1", 999940, true⟩] = [] := by
  refine ⟨rfl, rfl, rfl⟩

/-- C2 (amended): each worker iteration runs one selection query: at most
5 peers, ordered oldest-checked-first, taken from the table with no
active-flag or staleness filter, so that any peer of a table with at most
5 rows is selected however recently it was checked. -/
theorem select_single_query (db : List Peer) :
    (selectPeersToPing db).length ≤ 5
    ∧ ((List.insertionSort checkAsc db).take 5).Pairwise checkAsc
    ∧ (∀ pid ∈ selectPeersToPing db, ∃ r ∈ db, r.PeerID = pid)
    ∧ (db.length ≤ 5 → ∀ r ∈ db, r.PeerID ∈ selectPeersToPing db) := by
  refine ⟨?_, ?_, ?_, ?_⟩
  · simp only [selectPeersToPing, List.length_map]
    exact List.length_take_le 5 (List.insertionSort checkAsc db)
  · exact List.Pairwise.sublist (List.take_sublist 5 _)
      (List.sorted_insertionSort checkAsc db)
  · intro pid hpid
    rw [selectPeersToPing, List.mem_map] at hpid
    obtain ⟨r, hr, hpr⟩ := hpid
    have hr2 : r ∈ List.insertionSort checkAsc db := (List.take_sublist 5 _).subset hr
    exact ⟨r, (List.perm_insertionSort checkAsc db).mem_iff.mp hr2, hpr⟩
  · intro hlen r hr
    have hlen2 : (List.insertionSort checkAsc db).length ≤ 5 := by
      rw [List.length_insertionSort]
      exact hlen
    rw [selectPeersToPing, List.take_of_length_le hlen2]
    exact List.mem_map.mpr ⟨r, (List.perm_insertionSort checkAsc db).mem_iff.mpr hr, rfl⟩

/-- Witness for the amended C2: on a two-row table the peer checked
longest ago, and in fact every peer, is selected. -/
theorem select_single_query_wit :
    "p2" ∈ selectPeersToPing [⟨"p1", 999940, true⟩, ⟨"p2", 997600, true⟩]
    ∧ (selectPeersToPing [⟨"p1", 999940, true⟩, ⟨"p2", 997600, true⟩]).length ≤ 5 := by
  have h := select_single_query [⟨"p1", 999940, true⟩, ⟨"p2", 997600, true⟩]
  exact ⟨h.2.2.2 (by decide) ⟨"p2", 997600, true⟩ (by decide), h.1⟩

/-- The ping phase of a worker iteration emits, for each selected peer in
order, a probe event then an upsert event, and nothing else: no sleep
event occurs anywhere in the phase. -/
theorem workerPingPhase_events (f : String → Bool) (now : Nat) (pids : List String) :
    ∀ db : List Peer,
      ((workerPingPhase f now pids db).1.countP WorkerEvent.isSleep = 0)
      ∧ (workerPingPhase f now pids db).1.filterMap WorkerEvent.probedPeer = pids := by
  induction pids with
  | nil =>
    intro db
    simp [workerPingPhase]
  | cons pid rest ih =>
    intro db
    simp [workerPingPhase, WorkerEvent.isSleep, WorkerEvent.probedPeer,
      ih (upsertPeer pid now (f pid) db)]

/-- C7 counterexample: with two selected peers the iteration trace is
probe, upsert, probe, upsert with no sleep between consecutive probes
(the only sleep in workerLoop is the 30 second pause on a query error). -/
theorem worker_no_pacing_cex :
    ((workerIteration false (fun _ => some (500, [], false)) 42
        [⟨"p1", 1, true⟩, ⟨"p2", 2, true⟩]).1
      = [.probe "p1" false, .upsertEv "p1" false, .probe "p2" false, .upsertEv "p2" false])
    ∧ ((workerIteration false (fun _ => some (500, [], false)) 42
        [⟨"p1", 1, true⟩, ⟨"p2", 2, true⟩]).1.countP WorkerEvent.isSleep = 0) := by
  refine ⟨rfl, rfl⟩

/-- C7 (amended): within one iteration the selected peers are probed
sequentially, each probe immediately followed by its upsert, in the order
the single selection query returned them, with no pacing delay between
consecutive probes; there is only this one batch, no second tier. -/
theorem worker_sequential_no_delay (daemon : String → DaemonReply) (now : Nat)
    (db : List Peer) :
    ((workerIteration false daemon now db).1.countP WorkerEvent.isSleep = 0)
    ∧ (workerIteration false daemon now db).1.filterMap WorkerEvent.probedPeer
        = selectPeersToPing db := by
  have h := workerPingPhase_events (fun pid => pingPeer daemon pid) now (selectPeersToPing db) db
  exact h

/-! ## Endpoints (C6, C9, C10) -/

/-- C6: the trigger-probe handler answers 405 to any non-POST method, 400
to an undecodable body or an empty peer id, in both cases leaving the
store untouched; otherwise it probes the named peer synchronously, upserts
the outcome and answers 200 with the ping_successful verdict. -/
theorem hehojexiste_validation (method : String) (body : Option HehojExisteRequest)
    (daemon : String → DaemonReply) (now : Nat) (db : List Peer) :
    (method ≠ "POST" → handleHehojExiste method body daemon now db = (⟨405, none⟩, db))
    ∧ (handleHehojExiste "POST" none daemon now db = (⟨400, none⟩, db))
    ∧ (∀ req, req.PeerID = "" →
        handleHehojExiste "POST" (some req) daemon now db = (⟨400, none⟩, db))
    ∧ (∀ req, req.PeerID ≠ "" →
        handleHehojExiste "POST" (some req) daemon now db
          = (⟨200, some (pingPeerWithAddress daemon req.PeerID req.AddressMap)⟩,
             upsertPeer req.PeerID now (pingPeerWithAddress daemon req.PeerID req.AddressMap)
               db)) := by
  refine ⟨fun h => ?_, ?_, fun req h => ?_, fun req h => ?_⟩
  · simp [handleHehojExiste, h]
  · simp [handleHehojExiste]
  · simp [handleHehojExiste, h]
  · simp [handleHehojExiste, h]

/-- Witness for C6: all four branches at concrete inputs; the last one
probes an unreachable daemon, returns ping_successful false and records
the peer with active false. -/
theorem hehojexiste_validation_wit :
    (handleHehojExiste "GET" (some ⟨"QmX", ""⟩) (fun _ => none) 7 [] = (⟨405, none⟩, []))
    ∧ (handleHehojExiste "POST" none (fun _ => none) 7 [] = (⟨400, none⟩, []))
    ∧ (handleHehojExiste "POST" (some ⟨"", ""⟩) (fun _ => none) 7 [] = (⟨400, none⟩, []))
    ∧ (handleHehojExiste "POST" (some ⟨"QmX", ""⟩) (fun _ => none) 7 []
        = (⟨200, some false⟩, [⟨"QmX", 7, false⟩])) := by
  have h1 := hehojexiste_validation "GET" (some ⟨"QmX", ""⟩) (fun _ => none) 7 []
  have h2 := hehojexiste_validation "POST" (some ⟨"QmX", ""⟩) (fun _ => none) 7 []
  have h3 := hehojexiste_validation "POST" (some ⟨"", ""⟩) (fun _ => none) 7 []
  refine ⟨h1.1 (by decide), h2.2.1, h3.2.2.1 ⟨"", ""⟩ rfl, ?_⟩
  have h4 := h2.2.2.2 ⟨"QmX", ""⟩ (by decide)
  rw [h4]
  rfl

/-- C9: the list endpoint returns every stored peer record (a permutation
of the table), ordered by descending last_time_check, and leaves the
store exactly as it was. -/
theorem peers_list_complete_sorted (db : List Peer) :
    (handlePeers db).1.Perm db
    ∧ (handlePeers db).1.Pairwise checkDesc
    ∧ (handlePeers db).2 = db :=
  ⟨List.perm_insertionSort checkDesc db, List.sorted_insertionSort checkDesc db, rfl⟩

/-- C10: with an empty store the slice handlePeers builds stays the nil
slice, so the encoded body is null and not the empty array; a non-empty
store encodes as a bracketed JSON array. -/
theorem empty_store_null_body :
    handlePeersSlice [] = none
    ∧ handlePeersBody [] = "null"
    ∧ handlePeersBody [] ≠ "[]"
    ∧ handlePeersBody [⟨"QmA", 3, true⟩]
        = "[\x7b\"peer_id\":\"QmA\",\"last_time_check\":3,\"active\":true\x7d]" := by
  refine ⟨rfl, rfl, by decide, rfl⟩
